import Mathlib

/-!
Verification of the metrics-and-confidence derivation engine of the
D2C funnel/SEO analysis (source: src/d2c_phase5.py).

Modelling conventions (shallow embedding):
* Python/pandas floats are modelled as rationals; a NaN / None /
  absent cell is the `none` value of `Option ℚ` (the "missing" marker).
  Infinities and binary-float rounding are not representable in this
  exact-arithmetic model.
* A row of the table, as far as grouping and per-metric confidence are
  concerned, is a pair of its `seo_category` cell (`Option String`,
  `none` = NaN) and one metric cell (`Option ℚ`).
* `round(x, 2)` is modelled as round-half-up to two decimals over ℚ.
* The population standard deviation (`pandas .std(ddof=0)`) involves a
  square root, which has no rational witness in general; theorems about
  the confidence loop therefore take the std as an argument constrained
  by `0 ≤ std` and `std ^ 2 = popVar`, exactly the defining equations of
  the source's `series.std(ddof=0)`.
-/

namespace D2C

/-- Source: `safe_div(a, b)` returns `a / b` when `b` is not 0/None/NaN and
`np.nan` otherwise.  A NaN numerator also propagates to NaN (`a / b` is NaN
when `a` is), so `none` in, `none` out. -/
def safe_div (a b : Option ℚ) : Option ℚ :=
  match b with
  | none => none
  | some bv => if bv = 0 then none else a.map (fun av => av / bv)

/-- Python `round(x, 2)` modelled over ℚ (round half up to 2 decimals). -/
def round2 (q : ℚ) : ℚ := (round (q * 100) : ℤ) / 100

/-- Source `z_to_confidence`: NaN z gives 0.5; otherwise `|z|` is capped at
6.0 and `[0, 6]` is mapped linearly onto `[0.5, 0.99]`, rounded to two
decimal places. -/
def z_to_confidence (z : Option ℚ) : ℚ :=
  match z with
  | none => 1/2
  | some zv => round2 (1/2 + (min 6 |zv|) / 6 * (49/100))

/-- One cleaned row.  After the cleaning block the count columns
(`impressions`, `clicks`, `installs`, `first_purchase`, `repeat_purchase`)
have been `fillna(0)`-ed, hence plain `ℚ`; the remaining numeric columns
went only through `pd.to_numeric(errors="coerce")` and can still be NaN,
hence `Option ℚ`. -/
structure Record where
  spend_usd : Option ℚ
  impressions : ℚ
  clicks : ℚ
  installs : ℚ
  first_purchase : ℚ
  repeat_purchase : ℚ
  revenue_usd : Option ℚ
  monthly_search_volume : Option ℚ
  conversion_rate : Option ℚ
  avg_position : Option ℚ

/-- Source: `safe_div(r["clicks"], r["impressions"])`. -/
def ctr (r : Record) : Option ℚ := safe_div (some r.clicks) (some r.impressions)

/-- Source: `safe_div(r["installs"], r["clicks"])`. -/
def cvr_click_to_install (r : Record) : Option ℚ :=
  safe_div (some r.installs) (some r.clicks)

/-- Source: `first_purchase.where(first_purchase > 0, installs)`. -/
def conversions_for_cac (r : Record) : ℚ :=
  if 0 < r.first_purchase then r.first_purchase else r.installs

/-- Source: `safe_div(r["spend_usd"], r["conversions_for_cac"])`. -/
def cac_usd (r : Record) : Option ℚ :=
  safe_div r.spend_usd (some (conversions_for_cac r))

/-- Source: `safe_div(r["revenue_usd"], r["spend_usd"])`. -/
def roas (r : Record) : Option ℚ := safe_div r.revenue_usd r.spend_usd

/-- Source: `safe_div(r["revenue_usd"], r["installs"])`. -/
def ltv_per_install (r : Record) : Option ℚ :=
  safe_div r.revenue_usd (some r.installs)

/-- Source: `safe_div(r["repeat_purchase"], r["first_purchase"])`. -/
def repeat_rate (r : Record) : Option ℚ :=
  safe_div (some r.repeat_purchase) (some r.first_purchase)

/-- Source: `safe_div(msv * (cr if not isnan(cr) else 0),
(ap + 1) if not isnan(ap) else 1)`.  A NaN `monthly_search_volume` makes the
numerator NaN, which `safe_div` propagates. -/
def opportunity_score (r : Record) : Option ℚ :=
  safe_div (r.monthly_search_volume.map (fun m => m * r.conversion_rate.getD 0))
    (some (match r.avg_position with | some p => p + 1 | none => 1))

/-- The spec's wording of the opportunity score (§4.4): substitute 0 for a
missing conversion rate and 0 for a missing average position, then
`safe_div(msv * c, p + 1)`. -/
def opportunity_score_spec (msv cr ap : Option ℚ) : Option ℚ :=
  safe_div (msv.map (fun m => m * cr.getD 0)) (some (ap.getD 0 + 1))

/-- A table projected to (seo_category cell, one metric cell) per row. -/
abbrev Table := List ((Option String) × (Option ℚ))

/-- The non-missing values of a column. -/
def someVals (l : List (Option ℚ)) : List ℚ := l.filterMap id

/-- The metric column of a table. -/
def seriesOf (tbl : Table) : List (Option ℚ) := tbl.map Prod.snd

/-- Source: `d2c_df[d2c_df["seo_category"] == cat][metric]` — the metric
cells of the rows whose category cell equals `some c`.  A NaN category cell
never equals a string, mirroring pandas `NaN == cat` being False. -/
def rowsOf (tbl : Table) (c : String) : List (Option ℚ) :=
  (tbl.filter (fun r => decide (r.1 = some c))).map Prod.snd

/-- pandas `sum` over a column: NaN cells are skipped. -/
def sumOpt (l : List (Option ℚ)) : ℚ := (someVals l).sum

/-- The group keys of `groupby("seo_category")`: the distinct non-NaN
category cells (pandas drops NaN keys). -/
def catKeys (tbl : Table) : List String :=
  ((tbl.map Prod.fst).filterMap id).dedup

/-- `series.notna().sum()` for the metric column. -/
def datasetCount (tbl : Table) : ℕ := (someVals (seriesOf tbl)).length

/-- `series.mean()` (NaN-skipping). -/
def datasetMean (tbl : Table) : ℚ :=
  (someVals (seriesOf tbl)).sum / (datasetCount tbl : ℚ)

/-- The square of `series.std(ddof=0)`: the population variance of the
non-missing values. -/
def popVar (tbl : Table) : ℚ :=
  ((someVals (seriesOf tbl)).map (fun x => (x - datasetMean tbl) ^ 2)).sum /
    (datasetCount tbl : ℚ)

/-- pandas mean of a column: NaN when there is no non-missing value. -/
def listMean (l : List (Option ℚ)) : Option ℚ :=
  if (someVals l).length = 0 then none
  else some ((someVals l).sum / ((someVals l).length : ℚ))

/-- `cat_rows[metric].mean() if len(cat_rows) else np.nan` — NaN both for an
empty category and for a category whose metric cells are all NaN. -/
def catValue (tbl : Table) (c : String) : Option ℚ := listMean (rowsOf tbl c)

/-- Source: `z = (cat_val - mean) / std if not isnan(cat_val) else np.nan`,
computed only when `series.notna().sum() > 1`, with
`std = series.std(ddof=0) if series.std(ddof=0) > 0 else 1.0`.  The caller
supplies `std` (see the module comment on square roots). -/
def zscore (tbl : Table) (c : String) (std : ℚ) : Option ℚ :=
  if 1 < datasetCount tbl then
    (catValue tbl c).map
      (fun v => (v - datasetMean tbl) / (if 0 < std then std else 1))
  else none

/-- The `confidence` field produced by the per-category loop for one metric:
`z_to_confidence(z)` when the dataset has more than one non-missing value,
and the literal 0.5 otherwise. -/
def metricConfidence (tbl : Table) (c : String) (std : ℚ) : ℚ :=
  if 1 < datasetCount tbl then z_to_confidence (zscore tbl c std) else 1/2

/-- Source lines 117-119: the `"Unknown"` default is applied to the whole
column only when the `seo_category` column is absent; a present column is
left untouched (individual NaN cells stay NaN). -/
def resolveSeoCategory (col : Option (List (Option String))) (n : ℕ) :
    List (Option String) :=
  match col with
  | some vs => vs
  | none => List.replicate n (some "Unknown")

/-- A pandas cell before numeric coercion: a float (possibly NaN) or a
string. -/
inductive PyVal where
  | num : Option ℚ → PyVal
  | str : String → PyVal
deriving DecidableEq

/-- Value of a list of decimal digit characters. -/
def digitsToNat (l : List Char) : ℕ :=
  l.foldl (fun a c => a * 10 + (c.toNat - 48)) 0

/-- Strip spaces from both ends (Python's float parsing ignores surrounding
whitespace). -/
def trimChars (l : List Char) : List Char :=
  ((l.dropWhile (fun c => c = ' ')).reverse.dropWhile (fun c => c = ' ')).reverse

/-- Unsigned decimal literal: digits with an optional fractional part.  Any
other character (in particular a percent sign) makes the cell unparsable. -/
def parseUnsignedQ (cs : List Char) : Option ℚ :=
  let ip := cs.takeWhile (fun c => c != '.')
  let rest := cs.dropWhile (fun c => c != '.')
  if ip.all Char.isDigit then
    match rest with
    | [] => if ip.isEmpty then none else some (digitsToNat ip : ℚ)
    | _ :: fp =>
      if fp.all Char.isDigit ∧ ¬(ip.isEmpty ∧ fp.isEmpty) then
        some ((digitsToNat ip : ℚ) + (digitsToNat fp : ℚ) / (10 : ℚ) ^ fp.length)
      else none
  else none

/-- Python float parsing as used by `pd.to_numeric`/`float` on the cell
grammars exercised here: optional sign, digits, optional fractional part;
anything else fails.  Failure is `none` (NaN under `errors="coerce"`). -/
def parseFloatQ (s : String) : Option ℚ :=
  match trimChars s.toList with
  | '-' :: t => (parseUnsignedQ t).map (fun q => -q)
  | '+' :: t => parseUnsignedQ t
  | cs => parseUnsignedQ cs

/-- One cell under `pd.to_numeric(col, errors="coerce")` (source line 113):
numbers pass through, strings are parsed, unparsable strings become NaN. -/
def toNumericCell (v : PyVal) : PyVal :=
  match v with
  | .num q => .num q
  | .str s => .num (parseFloatQ s)

/-- Python `str.strip("%")`: remove percent signs from both ends. -/
def stripPercent (s : String) : String :=
  String.mk (((s.toList.dropWhile (fun c => c = '%')).reverse.dropWhile
    (fun c => c = '%')).reverse)

/-- Source line 123: `lambda x: float(str(x).strip("%"))/100 if
isinstance(x, str) and "%" in x else x`.  The outer `Option` is the
possibility of `float()` raising (`none` = exception), which never happens
in the pipeline because the lambda runs after numeric coercion. -/
def percentFix (v : PyVal) : Option PyVal :=
  match v with
  | .str s =>
    if s.toList.contains '%' then
      (parseFloatQ (stripPercent s)).map (fun q => PyVal.num (some (q / 100)))
    else some (.str s)
  | .num q => some (.num q)

/-- The conversion_rate cleaning pipeline in source order: first the
`pd.to_numeric(errors="coerce")` of line 113, then the percent-string lambda
of line 123. -/
def cleanConversionRate (v : PyVal) : Option PyVal :=
  percentFix (toNumericCell v)

/-- The all-zero record of claim C9: every numeric field present and 0. -/
def zeroRecord : Record :=
  ⟨some 0, 0, 0, 0, 0, 0, some 0, some 0, some 0, some 0⟩

/-- The record of spec Scenario 4: `monthly_search_volume = 1000`,
`conversion_rate = 0.05`, `avg_position` missing. -/
def scenario4 : Record :=
  ⟨some 0, 0, 0, 0, 0, 0, some 0, some 1000, some (1/20), none⟩

/-- round over ℚ is monotone. -/
lemma round_q_mono {a b : ℚ} (h : a ≤ b) : round a ≤ round b := by
  rw [round_eq, round_eq]
  exact Int.floor_mono (by linarith)

/-- round2 is monotone. -/
lemma round2_mono {a b : ℚ} (h : a ≤ b) : round2 a ≤ round2 b := by
  unfold round2
  have h2 : round (a * 100) ≤ round (b * 100) := round_q_mono (by linarith)
  have h3 : ((round (a * 100) : ℤ) : ℚ) ≤ ((round (b * 100) : ℤ) : ℚ) := by
    exact_mod_cast h2
  linarith

/-- Evaluation rule for round2 from floor bounds. -/
lemma round2_eq_of_bounds (q : ℚ) (n : ℤ) (h1 : (n : ℚ) ≤ q * 100 + 1/2)
    (h2 : q * 100 + 1/2 < n + 1) : round2 q = (n : ℚ) / 100 := by
  unfold round2
  rw [round_eq, Int.floor_eq_iff.mpr ⟨h1, by exact_mod_cast h2⟩]

/-- round2 fixes 0.5. -/
lemma round2_half : round2 (1/2 : ℚ) = 1/2 := by
  have h := round2_eq_of_bounds (1/2) 50 (by norm_num) (by norm_num)
  rw [h]; norm_num

/-- round2 fixes 0.99. -/
lemma round2_99 : round2 (99/100 : ℚ) = 99/100 := by
  have h := round2_eq_of_bounds (99/100) 99 (by norm_num) (by norm_num)
  rw [h]; norm_num

/-- z_to_confidence always lies in the closed interval [0.5, 0.99]. -/
lemma ztc_bounds (z : Option ℚ) :
    1/2 ≤ z_to_confidence z ∧ z_to_confidence z ≤ 99/100 := by
  match z with
  | none => constructor <;> norm_num [z_to_confidence]
  | some zv =>
    have ha0 : 0 ≤ min 6 |zv| := le_min (by norm_num) (abs_nonneg zv)
    have ha6 : min 6 |zv| ≤ 6 := min_le_left _ _
    have hlow : (1/2 : ℚ) ≤ 1/2 + (min 6 |zv|) / 6 * (49/100) := by nlinarith
    have hhigh : (1/2 : ℚ) + (min 6 |zv|) / 6 * (49/100) ≤ 99/100 := by nlinarith
    show 1/2 ≤ round2 (1/2 + (min 6 |zv|) / 6 * (49/100))
      ∧ round2 (1/2 + (min 6 |zv|) / 6 * (49/100)) ≤ 99/100
    constructor
    · calc (1/2 : ℚ) = round2 (1/2) := round2_half.symm
        _ ≤ _ := round2_mono hlow
    · calc round2 (1/2 + (min 6 |zv|) / 6 * (49/100))
          ≤ round2 (99/100) := round2_mono hhigh
        _ = 99/100 := round2_99

/-- z_to_confidence of a present z equals 0.5 exactly when the magnitude of
z is below the rounding threshold 3/49. -/
lemma ztc_eq_half (z : ℚ) : z_to_confidence (some z) = 1/2 ↔ |z| < 3/49 := by
  have ha0 : 0 ≤ min 6 |z| := le_min (by norm_num) (abs_nonneg z)
  show round2 (1/2 + (min 6 |z|) / 6 * (49/100)) = 1/2 ↔ |z| < 3/49
  unfold round2
  rw [round_eq]
  constructor
  · intro h
    have hc : ((⌊(1/2 + (min 6 |z|) / 6 * (49/100)) * 100 + 1/2⌋ : ℤ) : ℚ) = 50 := by
      linarith
    have h50 : ⌊(1/2 + (min 6 |z|) / 6 * (49/100)) * 100 + 1/2⌋ = (50 : ℤ) := by
      exact_mod_cast hc
    have hb := (Int.floor_eq_iff.mp h50).2
    have ha : min 6 |z| < 3/49 := by push_cast at hb; linarith
    rcases min_lt_iff.mp ha with h6 | hz
    · norm_num at h6
    · exact hz
  · intro hz
    have ha : min 6 |z| < 3/49 := lt_of_le_of_lt (min_le_right 6 |z|) hz
    have h50 : ⌊(1/2 + (min 6 |z|) / 6 * (49/100)) * 100 + 1/2⌋ = (50 : ℤ) := by
      apply Int.floor_eq_iff.mpr
      constructor
      · push_cast; nlinarith
      · push_cast; nlinarith
    rw [h50]
    norm_num

/-- When |z| is at least 6 the cap makes the confidence that of z = 6. -/
lemma ztc_clamp (z : ℚ) (hz : 6 ≤ |z|) :
    z_to_confidence (some z) = z_to_confidence (some 6) := by
  have h1 : min 6 |z| = 6 := min_eq_left hz
  have h2 : min 6 |(6:ℚ)| = 6 := by norm_num
  show round2 (1/2 + (min 6 |z|) / 6 * (49/100)) =
    round2 (1/2 + (min 6 |(6:ℚ)|) / 6 * (49/100))
  rw [h1, h2]

/-- C4: safe_div returns the missing marker whenever the denominator is
zero or missing (None and NaN are both the missing marker `none` in this
model; in exact rational arithmetic no infinite value exists and the
function is total by construction). -/
theorem C4_safe_div_total :
    ∀ a : Option ℚ, safe_div a none = none ∧ safe_div a (some 0) = none := by
  intro a
  exact ⟨rfl, by simp [safe_div]⟩

/-- C1: z_to_confidence lands in [0.5, 0.99] for every input (missing or
present), and consequently so does the confidence field computed by the
per-category loop for every table, category and standard deviation. -/
theorem C1_confidence_bounds :
    (∀ z : Option ℚ, 1/2 ≤ z_to_confidence z ∧ z_to_confidence z ≤ 99/100)
    ∧ ∀ (tbl : Table) (c : String) (std : ℚ),
        1/2 ≤ metricConfidence tbl c std ∧ metricConfidence tbl c std ≤ 99/100 := by
  refine ⟨ztc_bounds, fun tbl c std => ?_⟩
  unfold metricConfidence
  by_cases h : 1 < datasetCount tbl
  · simp only [h, if_true]
    exact ztc_bounds _
  · simp only [h, if_false]
    norm_num

/-- The spec's formula for z_to_confidence:
`round(0.5 + (min(|z|, 6.0) / 6.0) * 0.49, 2)`. -/
def z_to_confidence_spec (z : ℚ) : ℚ :=
  round2 (1/2 + (min |z| 6) / 6 * (49/100))

/-- C2: z_to_confidence agrees with the spec's closed formula on every
present z, is 0.5 on the missing marker and at z = 0, is 0.99 at z = ±6,
and clamps every |z| > 6 (±100 in particular) to the value at 6. -/
theorem C2_z_to_confidence_formula :
    (∀ z : ℚ, z_to_confidence (some z) = z_to_confidence_spec z)
    ∧ z_to_confidence none = 1/2
    ∧ z_to_confidence (some 0) = 1/2
    ∧ z_to_confidence (some 6) = 99/100
    ∧ z_to_confidence (some (-6)) = 99/100
    ∧ (∀ z : ℚ, 6 < |z| → z_to_confidence (some z) = z_to_confidence (some 6))
    ∧ z_to_confidence (some 100) = z_to_confidence (some 6)
    ∧ z_to_confidence (some (-100)) = z_to_confidence (some 6) := by
  have h6 : z_to_confidence (some (6:ℚ)) = 99/100 := by
    have h : z_to_confidence (some (6:ℚ)) = round2 (99/100) := by
      show round2 (1/2 + (min 6 |(6:ℚ)|) / 6 * (49/100)) = round2 (99/100)
      norm_num
    rw [h, round2_99]
  refine ⟨fun z => ?_, rfl, ?_, h6, ?_, fun z hz => ztc_clamp z (le_of_lt hz),
    ztc_clamp 100 (by norm_num), ztc_clamp (-100) (by norm_num)⟩
  · show round2 (1/2 + (min 6 |z|) / 6 * (49/100)) =
      round2 (1/2 + (min |z| 6) / 6 * (49/100))
    rw [min_comm]
  · have h : z_to_confidence (some (0:ℚ)) = round2 (1/2) := by
      show round2 (1/2 + (min 6 |(0:ℚ)|) / 6 * (49/100)) = round2 (1/2)
      norm_num
    rw [h, round2_half]
  · have h : z_to_confidence (some (-6:ℚ)) = round2 (99/100) := by
      show round2 (1/2 + (min 6 |(-6:ℚ)|) / 6 * (49/100)) = round2 (99/100)
      norm_num
    rw [h, round2_99]

/-- C2 witness: the clamping clause instantiated at z = 100. -/
theorem C2_witness :
    6 < |(100:ℚ)| ∧ z_to_confidence (some 100) = z_to_confidence (some 6) :=
  ⟨by norm_num, C2_z_to_confidence_formula.2.2.2.2.2.1 100 (by norm_num)⟩

/-- C5: the computed opportunity_score coincides with the spec's formula
`safe_div(msv * (cr or 0), (ap or 0) + 1)` on every record, and the
Scenario-4 record (msv = 1000, cr = 0.05, ap missing) scores 50. -/
theorem C5_opportunity_score_formula :
    (∀ r : Record,
      opportunity_score r =
        opportunity_score_spec r.monthly_search_volume r.conversion_rate
          r.avg_position)
    ∧ opportunity_score scenario4 = some 50 := by
  constructor
  · intro r
    unfold opportunity_score opportunity_score_spec
    cases r.avg_position with
    | none => norm_num
    | some p => rfl
  · simp [opportunity_score, scenario4, safe_div]
    norm_num

/-- C9 counterexample: on the all-zero record the opportunity score is not
the missing marker (the denominator defaults to 0 + 1 = 1), refuting the
claim that every derived metric of an all-zero row is missing. -/
theorem C9_counterexample : opportunity_score zeroRecord ≠ none := by
  simp [opportunity_score, zeroRecord, safe_div]

/-- C9 (amended): on the all-zero record every funnel ratio (ctr, cvr,
cac, roas, ltv, repeat_rate) is the missing marker, while the opportunity
score is 0 (present, not missing). -/
theorem C9_all_zero_row :
    ctr zeroRecord = none
    ∧ cvr_click_to_install zeroRecord = none
    ∧ cac_usd zeroRecord = none
    ∧ roas zeroRecord = none
    ∧ ltv_per_install zeroRecord = none
    ∧ repeat_rate zeroRecord = none
    ∧ opportunity_score zeroRecord = some 0 := by
  refine ⟨?_, ?_, ?_, ?_, ?_, ?_, ?_⟩ <;>
    simp [ctr, cvr_click_to_install, cac_usd, roas, ltv_per_install,
      repeat_rate, opportunity_score, conversions_for_cac, safe_div, zeroRecord]

/-- C6: evaluating the cleaning pipeline at a percent-string cell.  The
coercion of line 113 turns `"45%"` into NaN before the percent handler of
line 123 runs, so the pipeline yields the missing marker — while the
handler applied to the raw string (the documented intent) would yield
0.45. -/
theorem C6_percent_string_dead :
    cleanConversionRate (PyVal.str "45%") = some (PyVal.num none)
    ∧ percentFix (PyVal.str "45%") = some (PyVal.num (some (9/20))) := by
  constructor
  · rfl
  · have h : percentFix (PyVal.str "45%") =
        some (PyVal.num (some ((45 : ℚ) / 100))) := rfl
    rw [h]
    norm_num

/-- The loop's confidence always factors through z_to_confidence of the
z-score (the guard branches agree on the missing z). -/
lemma metricConfidence_eq (tbl : Table) (c : String) (std : ℚ) :
    metricConfidence tbl c std = z_to_confidence (zscore tbl c std) := by
  unfold metricConfidence zscore
  by_cases h : 1 < datasetCount tbl
  · simp [h]
  · simp [h, z_to_confidence]

/-- A list of nonnegative rationals summing to zero is all zeros. -/
lemma list_sum_zero_of_nonneg {l : List ℚ} (hn : ∀ x ∈ l, 0 ≤ x)
    (hs : l.sum = 0) : ∀ x ∈ l, x = 0 := by
  induction l with
  | nil => intro x hx; exact absurd hx (List.not_mem_nil x)
  | cons a l ih =>
    have htail : 0 ≤ l.sum :=
      List.sum_nonneg (fun x hx => hn x (List.mem_cons_of_mem a hx))
    have hhead : 0 ≤ a := hn a (List.mem_cons_self a l)
    rw [List.sum_cons] at hs
    have ha : a = 0 := by linarith
    have hl : l.sum = 0 := by linarith
    intro x hx
    rcases List.mem_cons.mp hx with h1 | h1
    · rw [h1]; exact ha
    · exact ih (fun y hy => hn y (List.mem_cons_of_mem a hy)) hl x h1

/-- Zero population variance forces every non-missing value of the series
to equal the dataset mean. -/
lemma popVar_zero_all_eq {tbl : Table} (hc : 0 < datasetCount tbl)
    (hv : popVar tbl = 0) :
    ∀ x ∈ someVals (seriesOf tbl), x = datasetMean tbl := by
  intro x hx
  have hne : ((datasetCount tbl : ℚ)) ≠ 0 := Nat.cast_ne_zero.mpr hc.ne'
  have hS : ((someVals (seriesOf tbl)).map
      (fun y => (y - datasetMean tbl) ^ 2)).sum = 0 := by
    unfold popVar at hv
    rcases div_eq_zero_iff.mp hv with h | h
    · exact h
    · exact absurd h hne
  have hnn : ∀ y ∈ (someVals (seriesOf tbl)).map
      (fun y => (y - datasetMean tbl) ^ 2), 0 ≤ y := by
    intro y hy
    rcases List.mem_map.mp hy with ⟨z, _, rfl⟩
    exact sq_nonneg _
  have hsq := list_sum_zero_of_nonneg hnn hS ((x - datasetMean tbl) ^ 2)
    (List.mem_map_of_mem _ hx)
  exact sub_eq_zero.mp (sq_eq_zero_iff.mp hsq)

/-- A category's non-missing metric values are among the whole series'
non-missing values. -/
lemma someVals_rowsOf_subset {tbl : Table} {c : String} {x : ℚ}
    (hx : x ∈ someVals (rowsOf tbl c)) : x ∈ someVals (seriesOf tbl) := by
  unfold someVals rowsOf at hx
  unfold someVals seriesOf
  rcases List.mem_filterMap.mp hx with ⟨o, ho, hid⟩
  rcases List.mem_map.mp ho with ⟨r, hr, rfl⟩
  have hrtbl : r ∈ tbl := (List.mem_filter.mp hr).1
  exact List.mem_filterMap.mpr ⟨r.2, List.mem_map_of_mem Prod.snd hrtbl, hid⟩

/-- The mean of a column whose non-missing values are all m is m. -/
lemma listMean_const {l : List (Option ℚ)} {m v : ℚ}
    (hall : ∀ x ∈ someVals l, x = m) (hv : listMean l = some v) : v = m := by
  unfold listMean at hv
  by_cases h : (someVals l).length = 0
  · simp [h] at hv
  · simp only [h, if_false, Option.some.injEq] at hv
    have hlen : ((someVals l).length : ℚ) ≠ 0 := Nat.cast_ne_zero.mpr h
    have hsum : (someVals l).sum = ((someVals l).length : ℚ) * m := by
      rw [List.sum_eq_card_nsmul (someVals l) m hall]
      simp [nsmul_eq_mul]
    rw [← hv, hsum, mul_comm, mul_div_assoc, div_self hlen, mul_one]

/-- Unfolding of sumOpt on a cons cell. -/
lemma sumOpt_cons (o : Option ℚ) (l : List (Option ℚ)) :
    sumOpt (o :: l) = o.getD 0 + sumOpt l := by
  cases o <;> simp [sumOpt, someVals]

/-- Unfolding of rowsOf on a cons row. -/
lemma rowsOf_cons (r : (Option String) × (Option ℚ)) (tbl : Table) (c : String) :
    rowsOf (r :: tbl) c =
      if r.1 = some c then r.2 :: rowsOf tbl c else rowsOf tbl c := by
  by_cases h : r.1 = some c <;> simp [rowsOf, h]

/-- A table's column sum splits into the rows of one category plus the rows
of the remaining table. -/
lemma sumOpt_seriesOf_split (c : String) (tbl : Table) :
    sumOpt (rowsOf tbl c) +
      sumOpt (seriesOf (tbl.filter (fun r => !(decide (r.1 = some c))))) =
    sumOpt (seriesOf tbl) := by
  induction tbl with
  | nil => simp [rowsOf, seriesOf, sumOpt, someVals]
  | cons r tbl ih =>
    simp only [seriesOf] at ih ⊢
    by_cases h : r.1 = some c <;>
      simp [rowsOf_cons, h, List.filter_cons, sumOpt_cons] <;> linarith

/-- Filtering away one category's rows leaves every other category's rows
unchanged. -/
lemma rowsOf_filter_ne {c c' : String} (hne : c' ≠ c) (tbl : Table) :
    rowsOf (tbl.filter (fun r => !(decide (r.1 = some c)))) c' = rowsOf tbl c' := by
  induction tbl with
  | nil => rfl
  | cons r tbl ih =>
    by_cases h : r.1 = some c
    · have h' : ¬(r.1 = some c') := by
        rw [h]
        exact fun hh => hne (Option.some.inj hh).symm
      simp [List.filter_cons, h, rowsOf_cons, h', ih, Ne.symm hne]
    · simp [List.filter_cons, h, rowsOf_cons, ih]

/-- Partition lemma: over a duplicate-free category list covering every
row, per-category sums add up to the whole column's sum. -/
lemma sum_over_cats (cs : List String) :
    ∀ tbl : Table, cs.Nodup →
      (∀ r ∈ tbl, ∃ c ∈ cs, r.1 = some c) →
      (cs.map (fun c => sumOpt (rowsOf tbl c))).sum = sumOpt (seriesOf tbl) := by
  induction cs with
  | nil =>
    intro tbl _ hcov
    match tbl with
    | [] => rfl
    | r :: t =>
      rcases hcov r (List.mem_cons_self r t) with ⟨c, hc, _⟩
      exact absurd hc (List.not_mem_nil c)
  | cons c cs ih =>
    intro tbl hnd hcov
    have hnd' : cs.Nodup := hnd.of_cons
    have hcnotin : c ∉ cs := (List.nodup_cons.mp hnd).1
    have hmap : cs.map (fun a => sumOpt (rowsOf tbl a)) =
        cs.map (fun a =>
          sumOpt (rowsOf (tbl.filter (fun r => !(decide (r.1 = some c)))) a)) := by
      apply List.map_congr_left
      intro a ha
      have hne : a ≠ c := fun hh => hcnotin (hh ▸ ha)
      rw [rowsOf_filter_ne hne]
    have hcov' : ∀ r ∈ tbl.filter (fun r => !(decide (r.1 = some c))),
        ∃ a ∈ cs, r.1 = some a := by
      intro r hr
      have hrmem := (List.mem_filter.mp hr).1
      have hrp := (List.mem_filter.mp hr).2
      rcases hcov r hrmem with ⟨a, ha, heq⟩
      rcases List.mem_cons.mp ha with h1 | h1
      · exfalso
        rw [h1] at heq
        simp [heq] at hrp
      · exact ⟨a, h1, heq⟩
    have ihs := ih (tbl.filter (fun r => !(decide (r.1 = some c)))) hnd' hcov'
    calc ((c :: cs).map (fun a => sumOpt (rowsOf tbl a))).sum
        = sumOpt (rowsOf tbl c) +
            (cs.map (fun a => sumOpt (rowsOf tbl a))).sum := by simp
      _ = sumOpt (rowsOf tbl c) +
            sumOpt (seriesOf (tbl.filter (fun r => !(decide (r.1 = some c))))) := by
          rw [hmap, ihs]
      _ = sumOpt (seriesOf tbl) := sumOpt_seriesOf_split c tbl

/-- C8 counterexample: a table whose single row has a missing seo_category
cell but a present opportunity score.  groupby drops the NaN key, so the
per-category sums total 0 while the whole-table sum is 5, refuting the
partition claim for arbitrary input tables. -/
theorem C8_counterexample :
    ((catKeys [((none : Option String), some (5:ℚ))]).map
        (fun c => sumOpt (rowsOf [((none : Option String), some (5:ℚ))] c))).sum ≠
      sumOpt (seriesOf [((none : Option String), some (5:ℚ))]) := by
  simp [catKeys, rowsOf, seriesOf, sumOpt, someVals]

/-- C8 (amended): on every table in which each row's seo_category cell is
present, the per-category aggregated opportunity_score sums add up to the
whole-table sum. -/
theorem C8_partition (tbl : Table) (h : ∀ r ∈ tbl, r.1 ≠ none) :
    ((catKeys tbl).map (fun c => sumOpt (rowsOf tbl c))).sum =
      sumOpt (seriesOf tbl) := by
  apply sum_over_cats
  · exact List.nodup_dedup _
  · intro r hr
    cases hc : r.1 with
    | none => exact absurd hc (h r hr)
    | some c =>
      refine ⟨c, ?_, rfl⟩
      unfold catKeys
      rw [List.mem_dedup, List.mem_filterMap]
      exact ⟨some c, by rw [← hc]; exact List.mem_map_of_mem Prod.fst hr, rfl⟩

/-- The concrete table of the C8 witness. -/
def tblW : Table := [(some "A", some 1), (some "B", some 2), (some "A", none)]

/-- C8 witness: the partition identity instantiated on a concrete table
with two categories and a missing metric cell. -/
theorem C8_witness :
    (∀ r ∈ tblW, r.1 ≠ none)
    ∧ ((catKeys tblW).map (fun c => sumOpt (rowsOf tblW c))).sum =
        sumOpt (seriesOf tblW) :=
  ⟨by decide, C8_partition tblW (by decide)⟩

/-- C10: a row whose category cell is missing contributes to no group key,
to no category's row set and to no category's sum; and the `"Unknown"`
default applies only when the whole column is absent, never to an
individual missing cell. -/
theorem C10_missing_category_excluded :
    (∀ (tbl : Table) (v : Option ℚ) (c : String),
      catKeys (((none : Option String), v) :: tbl) = catKeys tbl
      ∧ rowsOf (((none : Option String), v) :: tbl) c = rowsOf tbl c
      ∧ sumOpt (rowsOf (((none : Option String), v) :: tbl) c) =
          sumOpt (rowsOf tbl c))
    ∧ (∀ (vs : List (Option String)) (n : ℕ),
        resolveSeoCategory (some vs) n = vs)
    ∧ (∀ n : ℕ,
        resolveSeoCategory none n = List.replicate n (some "Unknown")) := by
  refine ⟨fun tbl v c => ⟨?_, ?_, ?_⟩, fun vs n => rfl, fun n => rfl⟩
  · simp [catKeys]
  · simp [rowsOf]
  · simp [rowsOf]

/-- The concrete table of the C3 counterexample: one category holding the
whole dataset. -/
def tblC : Table := [(some "A", some 0), (some "A", some 100)]

/-- C3 counterexample: on `tblC` with the genuine standard deviation 50
(50² is the population variance, which is nonzero), the dataset has two
non-missing values and the category value is present, yet the confidence
is exactly 0.5 (the z-score is a well-defined 0), refuting the claimed
"only when undefined or missing" characterisation. -/
theorem C3_counterexample :
    metricConfidence tblC "A" 50 = 1/2
    ∧ (0:ℚ) ≤ 50
    ∧ (50:ℚ) ^ 2 = popVar tblC
    ∧ ¬ datasetCount tblC ≤ 1
    ∧ catValue tblC "A" ≠ none
    ∧ popVar tblC ≠ 0 := by
  have hsv : someVals (seriesOf tblC) = [(0:ℚ), 100] := rfl
  have hcount : datasetCount tblC = 2 := rfl
  have hmean : datasetMean tblC = 50 := by
    unfold datasetMean
    rw [hsv, hcount]
    norm_num
  have hvar : popVar tblC = 2500 := by
    unfold popVar
    rw [hsv, hcount, hmean]
    norm_num
  have hrows : rowsOf tblC "A" = [some (0:ℚ), some 100] := rfl
  have hcat : catValue tblC "A" = some 50 := by
    unfold catValue listMean
    rw [hrows]
    have h2 : someVals [some (0:ℚ), some 100] = [(0:ℚ), 100] := rfl
    rw [h2]
    norm_num
  have hz : zscore tblC "A" 50 = some 0 := by
    unfold zscore
    rw [hcount, hcat, hmean]
    norm_num
  have hmc : metricConfidence tblC "A" 50 = 1/2 := by
    rw [metricConfidence_eq, hz]
    exact (ztc_eq_half 0).mpr (by norm_num)
  refine ⟨hmc, by norm_num, by rw [hvar]; norm_num, by rw [hcount]; norm_num,
    by rw [hcat]; simp, by rw [hvar]; norm_num⟩

/-- C3 (amended): the confidence equals 0.5 exactly when the z-score is
undefined (fewer than two non-missing dataset values), the category value
is missing, or the z-score's magnitude is below the rounding threshold
3/49 ≈ 0.0612 (in particular z = 0); and a zero-variance metric always
yields confidence 0.5, because then every category mean coincides with the
dataset mean and z = 0. -/
theorem C3_confidence_half_iff (tbl : Table) (c : String) (std : ℚ)
    (hstd : 0 ≤ std) (hvar : std ^ 2 = popVar tbl) :
    (metricConfidence tbl c std = 1/2 ↔
      datasetCount tbl ≤ 1 ∨ catValue tbl c = none ∨
        ∃ z, zscore tbl c std = some z ∧ |z| < 3/49)
    ∧ (popVar tbl = 0 → metricConfidence tbl c std = 1/2) := by
  constructor
  · rw [metricConfidence_eq]
    by_cases hc : 1 < datasetCount tbl
    · rcases hval : catValue tbl c with _ | v
      · have hz : zscore tbl c std = none := by
          unfold zscore; simp [hc, hval]
        rw [hz]
        exact iff_of_true rfl (Or.inr (Or.inl rfl))
      · have hz : zscore tbl c std =
            some ((v - datasetMean tbl) / (if 0 < std then std else 1)) := by
          unfold zscore; simp [hc, hval]
        rw [hz, ztc_eq_half]
        constructor
        · intro hlt
          exact Or.inr (Or.inr ⟨_, rfl, hlt⟩)
        · rintro (h1 | h1 | ⟨z, hz2, hlt⟩)
          · exact absurd h1 (not_le.mpr hc)
          · exact Option.noConfusion h1
          · rw [Option.some.inj hz2]
            exact hlt
    · have hz : zscore tbl c std = none := by
        unfold zscore; simp [hc]
      rw [hz]
      exact iff_of_true rfl (Or.inl (not_lt.mp hc))
  · intro hv0
    rw [metricConfidence_eq]
    by_cases hc : 1 < datasetCount tbl
    · rcases hval : catValue tbl c with _ | v
      · have hz : zscore tbl c std = none := by
          unfold zscore; simp [hc, hval]
        rw [hz]; rfl
      · have hcpos : 0 < datasetCount tbl := by omega
        have hall := popVar_zero_all_eq hcpos hv0
        have hallcat : ∀ x ∈ someVals (rowsOf tbl c), x = datasetMean tbl :=
          fun x hx => hall x (someVals_rowsOf_subset hx)
        have hvm : v = datasetMean tbl := listMean_const hallcat hval
        have hz : zscore tbl c std =
            some ((v - datasetMean tbl) / (if 0 < std then std else 1)) := by
          unfold zscore; simp [hc, hval]
        rw [hz, hvm, sub_self, zero_div]
        exact (ztc_eq_half 0).mpr (by norm_num)
    · have hz : zscore tbl c std = none := by
        unfold zscore; simp [hc]
      rw [hz]; rfl

/-- The concrete table of the C3 witness: two categories, nonzero
variance. -/
def tblD : Table := [(some "A", some 0), (some "B", some 100)]

/-- C3 witness: the amended characterisation instantiated on a two-category
table with its genuine standard deviation 50. -/
theorem C3_witness :
    (0:ℚ) ≤ 50 ∧ (50:ℚ) ^ 2 = popVar tblD
    ∧ ((metricConfidence tblD "A" 50 = 1/2 ↔
         datasetCount tblD ≤ 1 ∨ catValue tblD "A" = none ∨
           ∃ z, zscore tblD "A" 50 = some z ∧ |z| < 3/49)
       ∧ (popVar tblD = 0 → metricConfidence tblD "A" 50 = 1/2)) := by
  have hsv : someVals (seriesOf tblD) = [(0:ℚ), 100] := rfl
  have hcount : datasetCount tblD = 2 := rfl
  have hmean : datasetMean tblD = 50 := by
    unfold datasetMean
    rw [hsv, hcount]
    norm_num
  have hvar : popVar tblD = 2500 := by
    unfold popVar
    rw [hsv, hcount, hmean]
    norm_num
  refine ⟨by norm_num, by rw [hvar]; norm_num,
    C3_confidence_half_iff tblD "A" 50 (by norm_num) (by rw [hvar]; norm_num)⟩

end D2C
